import Mathlib

/-!
Verification development for the `mlom` molecular-dynamics simulator.

The Rust source is shallowly embedded: `f64` is modelled by the real
numbers `ℝ` (exact arithmetic, no rounding), fallible code (Rust
`assert!`) is modelled by `Option`, and randomness is modelled by
passing the drawn values as explicit arguments.  Declarations keep the
names of the Rust items they embed.  A few items are used by the
sources but their declarations are not part of the source tree; those
are modelled from the specification and carry a doc comment starting
with `Modelled from the spec:`.
-/

namespace Mlom

noncomputable section

open Classical

/-- A vector in 3D space (src/algebra.rs, `Vector3`). Components are `f64`,
modelled by `ℝ`. -/
structure Vector3 where
  x : ℝ
  y : ℝ
  z : ℝ

/-- A point in 3D space (src/algebra.rs, `Point3`). -/
structure Point3 where
  x : ℝ
  y : ℝ
  z : ℝ

namespace Vector3

/-- `Vector3::zero` (src/algebra.rs line 130). -/
def zero : Vector3 := ⟨0, 0, 0⟩

/-- `impl Add<Vector3> for Vector3` (src/algebra.rs, `add_vec_and_point!`):
componentwise sum. -/
def add (u v : Vector3) : Vector3 := ⟨u.x + v.x, u.y + v.y, u.z + v.z⟩

/-- `impl Sub<Vector3> for Vector3` (src/algebra.rs, `sub_vec_and_point!`):
componentwise difference. -/
def sub (u v : Vector3) : Vector3 := ⟨u.x - v.x, u.y - v.y, u.z - v.z⟩

/-- `impl Mul<f64> for Vector3` (src/algebra.rs lines 249-258), and the
mirrored `impl Mul<Vector3> for f64`: scale each component by the scalar. -/
def mul (v : Vector3) (s : ℝ) : Vector3 := ⟨v.x * s, v.y * s, v.z * s⟩

/-- `impl Div<f64> for Vector3` (src/algebra.rs lines 279-288).  The source
body multiplies each component by `rhs` (`self.x * rhs`, not `self.x / rhs`);
the embedding reproduces that body verbatim. -/
def div (v : Vector3) (rhs : ℝ) : Vector3 := ⟨v.x * rhs, v.y * rhs, v.z * rhs⟩

/-- `impl DivAssign<f64> for Vector3` (src/algebra.rs lines 290-296).  The
source body multiplies each component by `rhs` (`self.x *= rhs`); the
embedding reproduces that body verbatim. -/
def div_assign (v : Vector3) (rhs : ℝ) : Vector3 := ⟨v.x * rhs, v.y * rhs, v.z * rhs⟩

/-- `Vector3::norm_squared` (src/algebra.rs line 135). -/
def norm_squared (v : Vector3) : ℝ := v.x ^ 2 + v.y ^ 2 + v.z ^ 2

/-- `Vector3::as_point` (src/algebra.rs line 144). -/
def as_point (v : Vector3) : Point3 := ⟨v.x, v.y, v.z⟩

end Vector3

namespace Point3

/-- `Point3::origin` (src/algebra.rs line 58). -/
def origin : Point3 := ⟨0, 0, 0⟩

/-- `impl Sub<Point3> for Point3` (src/algebra.rs, `sub_vec_and_point!`):
the difference of two points is a `Vector3`. -/
def sub (p q : Point3) : Vector3 := ⟨p.x - q.x, p.y - q.y, p.z - q.z⟩

/-- `impl Add<Vector3> for Point3` (src/algebra.rs, `add_vec_and_point!`):
the source's `Add` output type is always `Vector3`; callers convert back
with `as_point`. -/
def addVec (p : Point3) (v : Vector3) : Vector3 := ⟨p.x + v.x, p.y + v.y, p.z + v.z⟩

/-- The squared-distance value computed on src/algebra.rs line 64, before
the non-zero assertion: `(Δx)² + (Δy)² + (Δz)²`. -/
def dist2 (p q : Point3) : ℝ := (p.x - q.x) ^ 2 + (p.y - q.y) ^ 2 + (p.z - q.z) ^ 2

/-- `Point3::distance_to_squared` (src/algebra.rs lines 63-71).  The source
computes the squared distance and then runs `assert!(dist_squared != 0.0)`;
a failing assertion aborts the process, modelled by `none`. -/
def distance_to_squared (p q : Point3) : Option ℝ :=
  if dist2 p q = 0 then none else some (dist2 p q)

end Point3

/-- `R_STAR` (src/parameters.rs). -/
def R_STAR : ℝ := 3.0

/-- `EPSILON_STAR` (src/parameters.rs). -/
def EPSILON_STAR : ℝ := 0.2

/-- `R_CUT` (src/parameters.rs). -/
def R_CUT : ℝ := 10.0

/-- `FAR_AWAY` (src/parameters.rs). -/
def FAR_AWAY : ℝ := 99999999.0

/-- `BOX_SIDE` (src/parameters.rs). -/
def BOX_SIDE : ℝ := 42.0

/-- In exact arithmetic the squared distance vanishes exactly at equal
points. -/
theorem dist2_eq_zero_iff (p q : Point3) : Point3.dist2 p q = 0 ↔ p = q := by
  constructor
  · intro h
    unfold Point3.dist2 at h
    have hx : (p.x - q.x) ^ 2 = 0 ∧ (p.y - q.y) ^ 2 = 0 ∧ (p.z - q.z) ^ 2 = 0 := by
      constructor
      · nlinarith [sq_nonneg (p.x - q.x), sq_nonneg (p.y - q.y), sq_nonneg (p.z - q.z)]
      constructor
      · nlinarith [sq_nonneg (p.x - q.x), sq_nonneg (p.y - q.y), sq_nonneg (p.z - q.z)]
      · nlinarith [sq_nonneg (p.x - q.x), sq_nonneg (p.y - q.y), sq_nonneg (p.z - q.z)]
    obtain ⟨h1, h2, h3⟩ := hx
    have e1 : p.x = q.x := by nlinarith [sq_nonneg (p.x - q.x)]
    have e2 : p.y = q.y := by nlinarith [sq_nonneg (p.y - q.y)]
    have e3 : p.z = q.z := by nlinarith [sq_nonneg (p.z - q.z)]
    cases p; cases q; simp_all
  · intro h
    subst h
    unfold Point3.dist2
    ring

/-- Symmetry of the raw squared distance. -/
theorem dist2_comm (p q : Point3) : Point3.dist2 p q = Point3.dist2 q p := by
  unfold Point3.dist2; ring

/-- C1: the claim states `displacement / scalar` is the componentwise
quotient and fails with `DivisionByZero` when the scalar is `0`.  The source
(`impl Div<f64> for Vector3`, src/algebra.rs lines 279-296) instead
multiplies each component by the scalar and is total: `(1,2,3) / 2` yields
`(2,4,6)` rather than `(1/2, 1, 3/2)`, and `(1,2,3) / 0` returns `(0,0,0)`
instead of failing. -/
theorem C1_div_multiplies_by_scalar :
    Vector3.div ⟨1, 2, 3⟩ 2 = ⟨2, 4, 6⟩ ∧
    Vector3.div ⟨1, 2, 3⟩ 2 ≠ ⟨1 / 2, 1, 3 / 2⟩ ∧
    Vector3.div_assign ⟨1, 2, 3⟩ 2 = ⟨2, 4, 6⟩ ∧
    Vector3.div ⟨1, 2, 3⟩ 0 = ⟨0, 0, 0⟩ := by
  refine ⟨?_, ?_, ?_, ?_⟩
  · simp [Vector3.div]; norm_num
  · simp [Vector3.div]; norm_num
  · simp [Vector3.div_assign]; norm_num
  · simp [Vector3.div]

/-- A particle (src/system.rs, `Particle`).  The copy of `system.rs` in the
sources declares only `coordinates`, but `movement.rs` and
`periodic_conditions.rs` (also in the sources) read and write a
`momentum` field of type `Vector3`; the field itself is
Modelled from the spec: a Particle is a pair (position, momentum) (§3). -/
structure Particle where
  coordinates : Point3
  momentum : Vector3

/-- Modelled from the spec: `Particle::kinetic_moment` is called by
`kinetic_energy_and_temperature` (src/movement.rs line 57) but not declared
under the sources; per §4.5 the kinetic energy sums `‖momentum(i)‖²`, so the
kinetic moment of a particle is its momentum. -/
def Particle.kinetic_moment (p : Particle) : Vector3 := p.momentum

/-- A system of particles (src/system.rs, `System`). -/
structure System where
  particles : List Particle
  nb_particles_local : ℕ

namespace System

/-- `System::nb_particles_total` (src/system.rs line 110). -/
def nb_particles_total (sys : System) : ℕ := sys.particles.length

/-- Array indexing `self.particles[i]` as used by the source loops; every
source access is in bounds, so the default value is never read. -/
def particle (sys : System) (i : ℕ) : Particle :=
  sys.particles.getD i ⟨Point3.origin, Vector3.zero⟩

/-- The coordinates of the `i`-th particle. -/
def position (sys : System) (i : ℕ) : Point3 := (sys.particle i).coordinates

/-- The entry `forces[i][j]` computed by `System::compute_forces`
(src/system.rs lines 167-192) when no assertion fires: zero on the diagonal,
otherwise the source's gradient expression.  The source binds
`r_star_over_r_ij_pow2 = R_STAR.powi(2) / d`, then
`r_star_over_r_ij_pow8 = r_star_over_r_ij_pow2.powi(3)` and
`r_star_over_r_ij_pow14 = r_star_over_r_ij_pow8.powi(7)`, and applies
`-48.0 * EPSILON_STAR * (pow14 - pow8) * (c_i - c_j)` to each coordinate;
the embedding reproduces those bindings exactly. -/
def force_entry (sys : System) (i j : ℕ) : Vector3 :=
  if i = j then Vector3.zero
  else
    let d := Point3.dist2 (sys.position i) (sys.position j)
    let r_star_over_r_ij_pow2 := R_STAR ^ 2 / d
    let r_star_over_r_ij_pow8 := r_star_over_r_ij_pow2 ^ 3
    let r_star_over_r_ij_pow14 := r_star_over_r_ij_pow8 ^ 7
    ⟨-48 * EPSILON_STAR * (r_star_over_r_ij_pow14 - r_star_over_r_ij_pow8) *
        ((sys.position i).x - (sys.position j).x),
      -48 * EPSILON_STAR * (r_star_over_r_ij_pow14 - r_star_over_r_ij_pow8) *
        ((sys.position i).y - (sys.position j).y),
      -48 * EPSILON_STAR * (r_star_over_r_ij_pow14 - r_star_over_r_ij_pow8) *
        ((sys.position i).z - (sys.position j).z)⟩

/-- `System::compute_forces` (src/system.rs lines 167-192).  Each off-diagonal
iteration calls `distance_between_squared`, hence `distance_to_squared`, whose
assertion aborts the process when the squared distance is zero; the run
produces the full tensor exactly when no evaluated pair trips that assertion
(modelled by the guard), and aborts (`none`) otherwise. -/
def compute_forces (sys : System) : Option (ℕ → ℕ → Vector3) :=
  if ∀ i ∈ Finset.range sys.nb_particles_total, ∀ j ∈ Finset.range sys.nb_particles_total,
      i ≠ j → Point3.dist2 (sys.position i) (sys.position j) ≠ 0
  then some sys.force_entry else none

/-- `System::sum_of_forces` (src/system.rs lines 195-210): componentwise sum
of all entries `forces[i][j]` with both indices below `forces.len()`. -/
def sum_of_forces (n : ℕ) (forces : ℕ → ℕ → Vector3) : Vector3 :=
  ⟨∑ i ∈ Finset.range n, ∑ j ∈ Finset.range n, (forces i j).x,
    ∑ i ∈ Finset.range n, ∑ j ∈ Finset.range n, (forces i j).y,
    ∑ i ∈ Finset.range n, ∑ j ∈ Finset.range n, (forces i j).z⟩

/-- `System::from_file` (src/system.rs lines 87-107).  File reading and line
parsing are I/O and are embedded from the point where the particle list has
been parsed.  The only validation the source performs is
`assert!(nb_particles_local < particles.len())`; a failing assertion aborts
the startup, modelled by `none`. -/
def from_file (particles : List Particle) (nb_particles_local : ℕ) : Option System :=
  if nb_particles_local < particles.length then
    some ⟨particles, nb_particles_local⟩
  else none

end System

/-- A concrete store of two particles at `(0,0,0)` and `(3,3,0)`; their
squared separation is `18`. -/
def twoParticleStore : System :=
  ⟨[⟨⟨0, 0, 0⟩, Vector3.zero⟩, ⟨⟨3, 3, 0⟩, Vector3.zero⟩], 0⟩

/-- On the two-particle store no pair trips the zero-distance assertion, so
`compute_forces` returns the full tensor. -/
theorem twoParticleStore_compute_forces :
    twoParticleStore.compute_forces = some twoParticleStore.force_entry := by
  rw [System.compute_forces, if_pos]
  intro i hi j hj hij
  fin_cases hi <;> fin_cases hj <;>
    simp_all [System.position, System.particle, twoParticleStore, Point3.dist2]

/-- C2: the claim states the pair force is
`−48·ε*·((R*/r)¹⁴ − (R*/r)⁸)·δ` with the even powers obtained by repeated
squaring of `R*²/r²`.  The source (src/system.rs lines 177-181) instead
computes `(R*²/r²)³` — which is `(R*/r)⁶`, not `(R*/r)⁸` — and raises it to
the 7th power — giving `(R*/r)⁴²`, not `(R*/r)¹⁴` — contradicting its own
variable names `r_star_over_r_ij_pow8` / `r_star_over_r_ij_pow14` (and the
correct `powi(3)`-then-`powi(2)` pattern of `microscopic_energy` just above
it).  At separation `r² = 18` we have `R*²/r² = 1/2`, and the x-component of
`forces[0][1]` is `(144/5)·((1/2)²¹ − (1/2)³)`, not the claimed
`(144/5)·((1/2)⁷ − (1/2)⁴)`. -/
theorem C2_force_exponent_slip :
    twoParticleStore.compute_forces = some twoParticleStore.force_entry ∧
    (twoParticleStore.force_entry 0 1).x = 144 / 5 * ((1 / 2 : ℝ) ^ 21 - (1 / 2) ^ 3) ∧
    144 / 5 * ((1 / 2 : ℝ) ^ 21 - (1 / 2) ^ 3) ≠ 144 / 5 * ((1 / 2) ^ 7 - (1 / 2) ^ 4) := by
  refine ⟨twoParticleStore_compute_forces, ?_, by norm_num⟩
  simp only [System.force_entry, System.position, System.particle, twoParticleStore]
  norm_num [Point3.dist2, R_STAR, EPSILON_STAR]

/-- The force tensor entries are antisymmetric in the particle indices,
componentwise: the dependence on the pair is through the symmetric squared
distance and the antisymmetric coordinate difference. -/
theorem force_entry_antisymm (sys : System) (i j : ℕ) :
    (sys.force_entry j i).x = -(sys.force_entry i j).x ∧
    (sys.force_entry j i).y = -(sys.force_entry i j).y ∧
    (sys.force_entry j i).z = -(sys.force_entry i j).z := by
  by_cases h : i = j
  · subst h; simp [System.force_entry, Vector3.zero]
  · simp only [System.force_entry, if_neg h, if_neg (Ne.symm h)]
    rw [dist2_comm (sys.position j) (sys.position i)]
    refine ⟨by ring, by ring, by ring⟩

/-- C8: for every store whose force computation completes (the zero-distance
assertion fires on no pair — in particular for pairwise-distinct positions),
the componentwise sum of the force tensor over all ordered pairs is exactly
zero in exact arithmetic, hence below `1e-5` in absolute value: the `(i,j)`
and `(j,i)` contributions cancel. -/
theorem C8_sum_of_forces_zero (sys : System) (F : ℕ → ℕ → Vector3)
    (hN : 2 ≤ sys.nb_particles_total)
    (hF : sys.compute_forces = some F) :
    |(System.sum_of_forces sys.nb_particles_total F).x| < 1e-5 ∧
    |(System.sum_of_forces sys.nb_particles_total F).y| < 1e-5 ∧
    |(System.sum_of_forces sys.nb_particles_total F).z| < 1e-5 := by
  have hFe : F = sys.force_entry := by
    by_cases hc : ∀ i ∈ Finset.range sys.nb_particles_total,
        ∀ j ∈ Finset.range sys.nb_particles_total,
        i ≠ j → Point3.dist2 (sys.position i) (sys.position j) ≠ 0
    · rw [System.compute_forces, if_pos hc] at hF
      exact (Option.some.injEq _ _).mp hF.symm
    · rw [System.compute_forces, if_neg hc] at hF
      exact absurd hF (by simp)
  subst hFe
  have key : ∀ g : ℕ → ℕ → ℝ, (∀ i j, g j i = -g i j) →
      ∑ i ∈ Finset.range sys.nb_particles_total,
        ∑ j ∈ Finset.range sys.nb_particles_total, g i j = 0 := by
    intro g hg
    have h1 : (∑ i ∈ Finset.range sys.nb_particles_total,
        ∑ j ∈ Finset.range sys.nb_particles_total, g i j)
        = ∑ j ∈ Finset.range sys.nb_particles_total,
            ∑ i ∈ Finset.range sys.nb_particles_total, g i j := Finset.sum_comm
    have h2 : (∑ j ∈ Finset.range sys.nb_particles_total,
        ∑ i ∈ Finset.range sys.nb_particles_total, g i j)
        = -∑ i ∈ Finset.range sys.nb_particles_total,
            ∑ j ∈ Finset.range sys.nb_particles_total, g i j := by
      rw [← Finset.sum_neg_distrib]
      refine Finset.sum_congr rfl fun j _ => ?_
      rw [← Finset.sum_neg_distrib]
      refine Finset.sum_congr rfl fun i _ => ?_
      rw [hg i j, neg_neg]
    linarith [h1, h2]
  refine ⟨?_, ?_, ?_⟩
  · rw [System.sum_of_forces]
    rw [key (fun i j => (sys.force_entry i j).x) fun i j => (force_entry_antisymm sys i j).1]
    norm_num
  · rw [System.sum_of_forces]
    rw [key (fun i j => (sys.force_entry i j).y)
      fun i j => (force_entry_antisymm sys i j).2.1]
    norm_num
  · rw [System.sum_of_forces]
    rw [key (fun i j => (sys.force_entry i j).z)
      fun i j => (force_entry_antisymm sys i j).2.2]
    norm_num

/-- Witness for C8 at the concrete two-particle store. -/
theorem C8_sum_of_forces_zero_witness :
    |(System.sum_of_forces twoParticleStore.nb_particles_total
        twoParticleStore.force_entry).x| < 1e-5 ∧
    |(System.sum_of_forces twoParticleStore.nb_particles_total
        twoParticleStore.force_entry).y| < 1e-5 ∧
    |(System.sum_of_forces twoParticleStore.nb_particles_total
        twoParticleStore.force_entry).z| < 1e-5 :=
  C8_sum_of_forces_zero twoParticleStore twoParticleStore.force_entry
    (by simp [System.nb_particles_total, twoParticleStore])
    twoParticleStore_compute_forces

/-- C6 counterexample: the claim states `squared_distance` is total and
performs no internal non-zero check, returning `0` at `p = q`.  The source
(src/algebra.rs line 68) asserts `dist_squared != 0.0`, so at `p = q` the
call aborts instead of returning `0`. -/
theorem C6_counterexample :
    Point3.distance_to_squared Point3.origin Point3.origin = none ∧
    Point3.distance_to_squared Point3.origin Point3.origin ≠ some 0 := by
  constructor
  · simp [Point3.distance_to_squared, Point3.dist2, Point3.origin]
  · simp [Point3.distance_to_squared, Point3.dist2, Point3.origin]

/-- C6 amended: `distance_to_squared` checks for zero internally: it aborts
exactly at coincident points (in exact arithmetic, squared distance zero iff
the points are equal) and returns `(p−q)·(p−q)` exactly at distinct points. -/
theorem C6_distance_check_is_internal (p q : Point3) :
    (Point3.distance_to_squared p q = none ↔ p = q) ∧
    (Point3.distance_to_squared p q = some (Point3.dist2 p q) ↔ p ≠ q) := by
  unfold Point3.distance_to_squared
  by_cases h : Point3.dist2 p q = 0
  · rw [if_pos h]
    rw [dist2_eq_zero_iff] at h
    simp [h]
  · rw [if_neg h]
    have hpq : p ≠ q := fun e => h ((dist2_eq_zero_iff p q).mpr e)
    simp [hpq]

/-- C9 counterexample: the claim states construction fails whenever the
particle count is below 2.  The source checks only
`nb_particles_local < particles.len()`: a one-particle input with
`nb_particles_local = 0` is accepted. -/
theorem C9_counterexample :
    System.from_file [⟨Point3.origin, Vector3.zero⟩] 0 =
      some ⟨[⟨Point3.origin, Vector3.zero⟩], 0⟩ ∧
    ([(⟨Point3.origin, Vector3.zero⟩ : Particle)]).length < 2 := by
  constructor
  · rw [System.from_file, if_pos (by simp)]
  · simp

/-- C9 amended: `from_file` (given a well-formed input file) succeeds exactly
when `nb_particles_local < N`; the particle count `N ≥ 2` is never checked. -/
theorem C9_from_file_checks_only_nb_local (particles : List Particle) (nb : ℕ) :
    (∃ sys, System.from_file particles nb = some sys) ↔ nb < particles.length := by
  unfold System.from_file
  by_cases h : nb < particles.length <;> simp [h]

/-- `neighboring_3d_translations` (src/periodic_conditions.rs lines 8-24):
the 27 translations `{−L, 0, L}³`, `x` outermost, then `y`, then `z`. -/
def neighboring_3d_translations (box_side : ℝ) : List Vector3 :=
  ([-1, 0, 1] : List ℝ).flatMap fun x =>
    ([-1, 0, 1] : List ℝ).flatMap fun y =>
      ([-1, 0, 1] : List ℝ).map fun z =>
        Vector3.mk (x * box_side) (y * box_side) (z * box_side)

namespace System

/-- One iteration of the `(sym, i, j)` loop body of
`System::microscopic_energy_periodic` (src/periodic_conditions.rs lines
30-67), acting on the running accumulator; `none` models an aborted process
(a failed assertion) and is absorbing.  Branches in source order: the
self-pair at the zero translation is skipped; a translated particle exactly
coinciding with particle `i` is skipped (with a printed diagnostic, not
modelled); the assertion inside `distance_to_squared` aborts at squared
distance zero; a squared distance below `0.0001` aborts through
`assert!(dist_ij_squared > 0.01)`; a squared distance strictly above
`radius_cut²` is skipped; otherwise the Lennard-Jones term accumulates. -/
def energy_step (sys : System) (radius_cut : ℝ) (acc : Option ℝ)
    (t : Vector3 × ℕ × ℕ) : Option ℝ :=
  match acc with
  | none => none
  | some total =>
    if t.2.1 = t.2.2 ∧ t.1 = Vector3.zero then some total
    else
      let particle_j_with_symmetry := ((sys.position t.2.2).addVec t.1).as_point
      if sys.position t.2.1 = particle_j_with_symmetry then some total
      else
        let dist_ij_squared := Point3.dist2 (sys.position t.2.1) particle_j_with_symmetry
        if dist_ij_squared = 0 then none
        else if dist_ij_squared < 0.0001 then none
        else if dist_ij_squared > radius_cut ^ 2 then some total
        else
          let r_star_over_r_ij := R_STAR / Real.sqrt dist_ij_squared
          some (total + (r_star_over_r_ij ^ 12 - 2 * r_star_over_r_ij ^ 6))

/-- The `(sym, i, j)` triples visited by the nested loops of
`microscopic_energy_periodic`, in iteration order: `sym` outermost, then
`i`, then `j`. -/
def energy_triples (sys : System) (translations : List Vector3) :
    List (Vector3 × ℕ × ℕ) :=
  translations.flatMap fun sym =>
    (List.range sys.nb_particles_total).flatMap fun i =>
      (List.range sys.nb_particles_total).map fun j => (sym, i, j)

/-- `System::microscopic_energy_periodic` (src/periodic_conditions.rs lines
28-71): fold the loop body over all `(sym, i, j)` and return
`(4.0 * EPSILON_STAR * total) / 2.0`, unless an assertion aborted the run. -/
def microscopic_energy_periodic (sys : System) (translations : List Vector3)
    (radius_cut : ℝ) : Option ℝ :=
  ((sys.energy_triples translations).foldl (sys.energy_step radius_cut) (some 0)).map
    fun total => 4 * EPSILON_STAR * total / 2

/-- The contribution a non-aborting iteration adds to the accumulator:
zero for the three skip branches, the Lennard-Jones term otherwise. -/
def energy_term (sys : System) (radius_cut : ℝ) (t : Vector3 × ℕ × ℕ) : ℝ :=
  if t.2.1 = t.2.2 ∧ t.1 = Vector3.zero then 0
  else
    let pj := ((sys.position t.2.2).addVec t.1).as_point
    if sys.position t.2.1 = pj then 0
    else
      let d := Point3.dist2 (sys.position t.2.1) pj
      if d > radius_cut ^ 2 then 0
      else (R_STAR / Real.sqrt d) ^ 12 - 2 * (R_STAR / Real.sqrt d) ^ 6

/-- The iterations on which `microscopic_energy_periodic` aborts: the triple
is not the excluded self-pair, the translated coordinates do not coincide
exactly, and the squared separation is below `0.0001`. -/
def energy_aborts (sys : System) (t : Vector3 × ℕ × ℕ) : Prop :=
  ¬(t.2.1 = t.2.2 ∧ t.1 = Vector3.zero) ∧
  sys.position t.2.1 ≠ ((sys.position t.2.2).addVec t.1).as_point ∧
  Point3.dist2 (sys.position t.2.1) (((sys.position t.2.2).addVec t.1).as_point) < 0.0001

end System

/-- A non-aborting iteration adds exactly its `energy_term`. -/
theorem energy_step_some (sys : System) (radius_cut : ℝ) (total : ℝ)
    (t : Vector3 × ℕ × ℕ) (h : ¬ sys.energy_aborts t) :
    sys.energy_step radius_cut (some total) t =
      some (total + sys.energy_term radius_cut t) := by
  unfold System.energy_step System.energy_term System.energy_aborts at *
  by_cases h1 : t.2.1 = t.2.2 ∧ t.1 = Vector3.zero
  · simp [h1]
  by_cases h2 : sys.position t.2.1 = ((sys.position t.2.2).addVec t.1).as_point
  · simp [h1, h2]
  have hd0 : Point3.dist2 (sys.position t.2.1)
      (((sys.position t.2.2).addVec t.1).as_point) ≠ 0 := by
    intro e
    exact h2 ((dist2_eq_zero_iff _ _).mp e)
  have hsmall : ¬ Point3.dist2 (sys.position t.2.1)
      (((sys.position t.2.2).addVec t.1).as_point) < 0.0001 := by
    intro e
    exact h ⟨h1, h2, e⟩
  by_cases h3 : Point3.dist2 (sys.position t.2.1)
      (((sys.position t.2.2).addVec t.1).as_point) > radius_cut ^ 2
  · simp [h1, h2, hd0, hsmall, h3]
  · simp [h1, h2, hd0, hsmall, h3]

/-- An aborting iteration maps any live accumulator to `none`. -/
theorem energy_step_none_of_aborts (sys : System) (radius_cut : ℝ) (total : ℝ)
    (t : Vector3 × ℕ × ℕ) (h : sys.energy_aborts t) :
    sys.energy_step radius_cut (some total) t = none := by
  obtain ⟨h1, h2, h3⟩ := h
  unfold System.energy_step
  by_cases hd0 : Point3.dist2 (sys.position t.2.1)
      (((sys.position t.2.2).addVec t.1).as_point) = 0
  · simp [h1, h2, hd0]
  · simp [h1, h2, hd0, h3]

/-- `none` is absorbing for the energy fold. -/
theorem foldl_energy_none (sys : System) (radius_cut : ℝ)
    (l : List (Vector3 × ℕ × ℕ)) :
    l.foldl (sys.energy_step radius_cut) none = none := by
  induction l with
  | nil => rfl
  | cons t l ih => simpa [System.energy_step] using ih

/-- When no visited triple aborts, the fold computes the running sum of the
`energy_term`s. -/
theorem foldl_energy_some (sys : System) (radius_cut : ℝ)
    (l : List (Vector3 × ℕ × ℕ)) (h : ∀ t ∈ l, ¬ sys.energy_aborts t) :
    ∀ total : ℝ, l.foldl (sys.energy_step radius_cut) (some total) =
      some (total + (l.map (sys.energy_term radius_cut)).sum) := by
  induction l with
  | nil => intro total; simp
  | cons t l ih =>
    intro total
    have ht : ¬ sys.energy_aborts t := h t (by simp)
    rw [List.foldl_cons, energy_step_some sys radius_cut total t ht,
      ih fun u hu => h u (by simp [hu])]
    simp [add_assoc]

/-- The fold aborts exactly when some visited triple aborts. -/
theorem foldl_energy_none_iff (sys : System) (radius_cut : ℝ)
    (l : List (Vector3 × ℕ × ℕ)) :
    ∀ total : ℝ, (l.foldl (sys.energy_step radius_cut) (some total) = none ↔
      ∃ t ∈ l, sys.energy_aborts t) := by
  induction l with
  | nil => intro total; simp
  | cons t l ih =>
    intro total
    by_cases ht : sys.energy_aborts t
    · rw [List.foldl_cons, energy_step_none_of_aborts sys radius_cut total t ht,
        foldl_energy_none]
      simp [ht]
    · rw [List.foldl_cons, energy_step_some sys radius_cut total t ht]
      rw [ih (total + sys.energy_term radius_cut t)]
      simp [ht]

/-- Sum of a mapped `flatMap` as an iterated sum. -/
theorem sum_map_flatMap {α β : Type} (ts : List α) (f : α → List β) (g : β → ℝ) :
    (((ts.flatMap f).map g).sum) = (ts.map fun a => (((f a).map g)).sum).sum := by
  induction ts with
  | nil => simp
  | cons a l ih => simp [ih]

/-- Sum of a function mapped over `List.range` as a `Finset.range` sum. -/
theorem sum_map_range (n : ℕ) (g : ℕ → ℝ) :
    ((List.range n).map g).sum = ∑ i ∈ Finset.range n, g i := by
  induction n with
  | zero => simp
  | succ n ih => rw [List.range_succ]; simp [ih, Finset.sum_range_succ]

/-- A store of two particles at distinct positions whose squared separation
`(1/200)² = 0.000025` is strictly between `0` and `0.0001`. -/
def closePairStore : System :=
  ⟨[⟨⟨0, 0, 0⟩, Vector3.zero⟩, ⟨⟨1 / 200, 0, 0⟩, Vector3.zero⟩], 0⟩

/-- C3 counterexample: the claim promises a value `2·ε*·S` for every store at
pairwise-distinct positions (all evaluated separations nonzero).  On the
store with particles at `(0,0,0)` and `(1/200,0,0)` — distinct positions,
squared separation `0.000025 ≠ 0` — the computation aborts by assertion
(`assert!(dist_ij_squared > 0.01)`) instead of returning any value. -/
theorem C3_counterexample :
    (∀ i j, i < 2 → j < 2 → i ≠ j →
      Point3.dist2 (closePairStore.position i) (closePairStore.position j) ≠ 0) ∧
    closePairStore.microscopic_energy_periodic [Vector3.zero] R_CUT = none := by
  constructor
  · intro i j hi hj hij
    interval_cases i <;> interval_cases j <;>
      simp_all [System.position, System.particle, closePairStore, Point3.dist2]
  · rw [System.microscopic_energy_periodic]
    have : (closePairStore.energy_triples [Vector3.zero]).foldl
        (closePairStore.energy_step R_CUT) (some 0) = none := by
      rw [foldl_energy_none_iff]
      refine ⟨(Vector3.zero, 0, 1), ?_, ?_, ?_, ?_⟩
      · simp [System.energy_triples, System.nb_particles_total, closePairStore]
      · simp
      · simp only [System.position, System.particle, closePairStore,
          Vector3.as_point, Point3.addVec, Vector3.zero, List.getD_cons_zero,
          List.getD_cons_succ, ne_eq, Point3.mk.injEq]
        norm_num
      · simp only [System.position, System.particle, closePairStore,
          Vector3.as_point, Point3.addVec, Vector3.zero, List.getD_cons_zero,
          List.getD_cons_succ, Point3.dist2]
        norm_num
    rw [this]
    rfl

/-- C3 amended: provided every evaluated pair — every `(sym, i, j)` with
`sym ∈ T`, `i, j < N` other than the self-pair at the zero translation — has
squared separation at least `0.0001` (so no assertion fires; this also rules
out exact coincidences), the periodic potential energy is
`2·ε*·S` with `S` the sum over those triples of
`(R*/r)¹² − 2·(R*/r)⁶`, skipping exactly the triples with `r²` strictly
greater than `r_cut²` (a pair with `r² = r_cut²` is included). -/
theorem C3_energy_value (sys : System) (translations : List Vector3)
    (radius_cut : ℝ)
    (h : ∀ sym ∈ translations, ∀ i < sys.nb_particles_total,
      ∀ j < sys.nb_particles_total, ¬(i = j ∧ sym = Vector3.zero) →
      0.0001 ≤ Point3.dist2 (sys.position i) (((sys.position j).addVec sym).as_point)) :
    sys.microscopic_energy_periodic translations radius_cut =
      some (2 * EPSILON_STAR *
        (translations.map fun sym =>
          ∑ i ∈ Finset.range sys.nb_particles_total,
            ∑ j ∈ Finset.range sys.nb_particles_total,
              if ¬(i = j ∧ sym = Vector3.zero) ∧
                  Point3.dist2 (sys.position i) (((sys.position j).addVec sym).as_point)
                    ≤ radius_cut ^ 2 then
                (R_STAR / Real.sqrt (Point3.dist2 (sys.position i)
                    (((sys.position j).addVec sym).as_point))) ^ 12 -
                  2 * (R_STAR / Real.sqrt (Point3.dist2 (sys.position i)
                    (((sys.position j).addVec sym).as_point))) ^ 6
              else 0).sum) := by
  have hnoab : ∀ t ∈ sys.energy_triples translations, ¬ sys.energy_aborts t := by
    intro t ht hab
    obtain ⟨h1, h2, h3⟩ := hab
    obtain ⟨sym, hsym, rest⟩ := by
      simpa [System.energy_triples, List.mem_flatMap, List.mem_map,
        List.mem_range] using ht
    obtain ⟨i, hi, j, hj, hij⟩ := rest
    subst hij
    exact absurd h3 (not_lt.mpr (h sym hsym i hi j hj h1))
  rw [System.microscopic_energy_periodic, foldl_energy_some sys radius_cut _ hnoab 0]
  have hterm : ((sys.energy_triples translations).map
      (sys.energy_term radius_cut)).sum =
      (translations.map fun sym =>
        ∑ i ∈ Finset.range sys.nb_particles_total,
          ∑ j ∈ Finset.range sys.nb_particles_total,
            if ¬(i = j ∧ sym = Vector3.zero) ∧
                Point3.dist2 (sys.position i) (((sys.position j).addVec sym).as_point)
                  ≤ radius_cut ^ 2 then
              (R_STAR / Real.sqrt (Point3.dist2 (sys.position i)
                  (((sys.position j).addVec sym).as_point))) ^ 12 -
                2 * (R_STAR / Real.sqrt (Point3.dist2 (sys.position i)
                  (((sys.position j).addVec sym).as_point))) ^ 6
            else 0).sum := by
    rw [System.energy_triples, sum_map_flatMap]
    refine congrArg List.sum (List.map_congr_left fun sym hsym => ?_)
    rw [sum_map_flatMap]
    simp only [List.map_map, Function.comp]
    rw [sum_map_range]
    refine Finset.sum_congr rfl fun i hi => ?_
    rw [sum_map_range]
    refine Finset.sum_congr rfl fun j hj => ?_
    have hij : ¬(i = j ∧ sym = Vector3.zero) →
        0.0001 ≤ Point3.dist2 (sys.position i)
          (((sys.position j).addVec sym).as_point) :=
      h sym hsym i (Finset.mem_range.mp hi) j (Finset.mem_range.mp hj)
    unfold System.energy_term
    by_cases h1 : i = j ∧ sym = Vector3.zero
    · simp [h1]
    have hd : 0.0001 ≤ Point3.dist2 (sys.position i)
        (((sys.position j).addVec sym).as_point) := hij h1
    have h2 : sys.position i ≠ ((sys.position j).addVec sym).as_point := by
      intro e
      rw [← dist2_eq_zero_iff] at e
      rw [e] at hd
      norm_num at hd
    by_cases h3 : Point3.dist2 (sys.position i)
        (((sys.position j).addVec sym).as_point) > radius_cut ^ 2
    · simp [h1, h2, h3, not_le.mpr h3]
    · simp [h1, h2, h3, not_lt.mp h3]
  simp only [Option.map_some', zero_add, hterm]
  congr 1
  ring

/-- The spec's scenario E3: two particles separated by exactly `R* = 3`. -/
def e3Store : System :=
  ⟨[⟨⟨0, 0, 0⟩, Vector3.zero⟩, ⟨⟨3, 0, 0⟩, Vector3.zero⟩], 0⟩

/-- Witness for C3 at the spec's scenario E3: two particles separated by
exactly `R* = 3`, a single zero translation, cutoff `R_CUT`; the energy is
`2·ε*·(−1 − 1) = −4/5`. -/
theorem C3_energy_value_witness :
    e3Store.microscopic_energy_periodic [Vector3.zero] R_CUT = some (-4 / 5) := by
  rw [C3_energy_value _ _ _ ?_]
  · have h9 : Real.sqrt 9 = 3 := by
      rw [show (9 : ℝ) = 3 ^ 2 by norm_num]
      exact Real.sqrt_sq (by norm_num)
    have hN : e3Store.nb_particles_total = 2 := rfl
    simp only [List.map_cons, List.map_nil, List.sum_cons, List.sum_nil, hN,
      Finset.sum_range_succ, Finset.sum_range_zero]
    norm_num [System.position, System.particle, e3Store, Point3.addVec,
      Vector3.as_point, Vector3.zero, Point3.dist2, R_STAR, R_CUT, EPSILON_STAR,
      Point3.mk.injEq, h9]
  · intro sym hsym i hi j hj hne
    simp only [List.mem_cons, List.not_mem_nil, or_false] at hsym
    subst hsym
    have hN : e3Store.nb_particles_total = 2 := rfl
    rw [hN] at hi hj
    interval_cases i <;> interval_cases j <;>
      simp_all [System.position, System.particle, e3Store, Point3.addVec,
        Vector3.as_point, Vector3.zero, Point3.dist2] <;> norm_num

/-- C10: the periodic energy computation aborts the process (no value is
returned) exactly when some evaluated `(sym, i, j)` — not the excluded
self-pair at the zero translation, and with the translated coordinates not
exactly equal — has squared separation below `0.0001` (hence strictly between
`0` and `0.0001`, since distinct coordinates have positive squared distance
in exact arithmetic); in particular exactly coincident pairs alone never
abort: they are skipped. -/
theorem C10_small_separation_aborts (sys : System) (translations : List Vector3)
    (radius_cut : ℝ) :
    sys.microscopic_energy_periodic translations radius_cut = none ↔
      ∃ sym ∈ translations, ∃ i < sys.nb_particles_total,
        ∃ j < sys.nb_particles_total,
          ¬(i = j ∧ sym = Vector3.zero) ∧
          sys.position i ≠ ((sys.position j).addVec sym).as_point ∧
          Point3.dist2 (sys.position i) (((sys.position j).addVec sym).as_point)
            < 0.0001 := by
  rw [System.microscopic_energy_periodic]
  rw [Option.map_eq_none']
  rw [foldl_energy_none_iff]
  constructor
  · rintro ⟨t, ht, hab⟩
    obtain ⟨sym, hsym, rest⟩ := by
      simpa [System.energy_triples, List.mem_flatMap, List.mem_map,
        List.mem_range] using ht
    obtain ⟨i, hi, j, hj, hij⟩ := rest
    subst hij
    exact ⟨sym, hsym, i, hi, j, hj, hab⟩
  · rintro ⟨sym, hsym, i, hi, j, hj, hab⟩
    refine ⟨(sym, i, j), ?_, hab⟩
    simp [System.energy_triples, List.mem_flatMap, List.mem_map, List.mem_range]
    exact ⟨sym, hsym, i, hi, j, hj, rfl, rfl, rfl⟩

namespace System

/-- `System::degrees_of_liberty` (src/movement.rs lines 7-9):
`(3 * N - 3) as f64`, where the subtraction is the `usize` (truncated
natural) subtraction. -/
def degrees_of_liberty (sys : System) : ℝ :=
  ((3 * sys.nb_particles_total - 3 : ℕ) : ℝ)

/-- `System::kinetic_energy_and_temperature` (src/movement.rs lines 54-68).
The constants `R_CONSTANT` (`k_B`) and `PARTICLE_MASS` (`m`) are
Modelled from the spec: build-time simulation constants (§6) whose values the
sources do not give; they are taken as parameters `kB` and `m`. -/
def kinetic_energy_and_temperature (kB m : ℝ) (sys : System) : ℝ × ℝ :=
  let sum_p2 := (sys.particles.map fun p =>
    p.kinetic_moment.x ^ 2 + p.kinetic_moment.y ^ 2 + p.kinetic_moment.z ^ 2).sum
  let kinetic_energy := sum_p2 / (2 * m)
  (kinetic_energy, 2 * kinetic_energy / (sys.degrees_of_liberty * kB))

/-- `System::recalibrate_according_to_temperature` (src/movement.rs lines
12-25).  `T_0` is Modelled from the spec: a build-time constant (§6), taken
as the parameter `T0`.  A non-positive kinetic energy is a no-op; otherwise
every momentum is multiplied (source `MulAssign`, which is a true scaling)
by `sqrt(desired_ke / initial_ke)`. -/
def recalibrate_according_to_temperature (kB T0 m : ℝ) (sys : System) : System :=
  let initial_ke := (sys.kinetic_energy_and_temperature kB m).1
  if initial_ke ≤ 0 then sys
  else
    let desired_ke := 0.5 * sys.degrees_of_liberty * kB * T0
    let scale := Real.sqrt (desired_ke / initial_ke)
    ⟨sys.particles.map fun p => { p with momentum := p.momentum.mul scale },
      sys.nb_particles_local⟩

/-- `System::recalibrate_according_to_center_of_mass` (src/movement.rs lines
28-40): accumulate the momenta into `center`, apply `center /= N` — which
goes through the source's `DivAssign` and therefore multiplies each component
by `N` — and subtract the result from every momentum. -/
def recalibrate_according_to_center_of_mass (sys : System) : System :=
  let center := Vector3.mk ((sys.particles.map fun p => p.momentum.x).sum)
    ((sys.particles.map fun p => p.momentum.y).sum)
    ((sys.particles.map fun p => p.momentum.z).sum)
  let center := center.div_assign (sys.nb_particles_total : ℝ)
  ⟨sys.particles.map fun p => { p with momentum := p.momentum.sub center },
    sys.nb_particles_local⟩

/-- Step 1 of `System::init_particles_momentums` (src/movement.rs lines
44-46): assign each particle the drawn random momentum; the outcomes of
`Vector3::random_in_unit_cube` are passed in as `draws` (particle `i`
receives `draws i`). -/
def with_drawn_momentums (draws : ℕ → Vector3) (sys : System) : System :=
  ⟨(List.range sys.nb_particles_total).map fun i =>
    { sys.particle i with momentum := draws i }, sys.nb_particles_local⟩

/-- `System::init_particles_momentums` (src/movement.rs lines 42-52): draw
momenta, then recalibrate to temperature, to the center of mass, and to
temperature again. -/
def init_particles_momentums (kB T0 m : ℝ) (draws : ℕ → Vector3)
    (sys : System) : System :=
  recalibrate_according_to_temperature kB T0 m
    (recalibrate_according_to_center_of_mass
      (recalibrate_according_to_temperature kB T0 m
        (sys.with_drawn_momentums draws)))

end System

/-- Scaling every momentum by `s` scales the summed squared momenta by
`s²`. -/
theorem sum_p2_of_mul (l : List Particle) (s : ℝ) :
    ((l.map fun p => ({ p with momentum := p.momentum.mul s } : Particle)).map
      fun p => p.kinetic_moment.x ^ 2 + p.kinetic_moment.y ^ 2 +
        p.kinetic_moment.z ^ 2).sum
    = s ^ 2 * (l.map fun p => p.kinetic_moment.x ^ 2 + p.kinetic_moment.y ^ 2 +
        p.kinetic_moment.z ^ 2).sum := by
  induction l with
  | nil => simp
  | cons p l ih =>
    simp only [List.map_cons, List.sum_cons, ih]
    simp only [Particle.kinetic_moment, Vector3.mul]
    ring

/-- The temperature recalibration preserves the particle count. -/
theorem nb_total_recalibrate_temperature (kB T0 m : ℝ) (sys : System) :
    (sys.recalibrate_according_to_temperature kB T0 m).nb_particles_total =
      sys.nb_particles_total := by
  simp only [System.recalibrate_according_to_temperature]
  split <;> simp [System.nb_particles_total]

/-- The center-of-mass recalibration preserves the particle count. -/
theorem nb_total_recalibrate_center_of_mass (sys : System) :
    sys.recalibrate_according_to_center_of_mass.nb_particles_total =
      sys.nb_particles_total := by
  unfold System.recalibrate_according_to_center_of_mass
  simp [System.nb_particles_total]

/-- Drawing momenta preserves the particle count. -/
theorem nb_total_with_drawn_momentums (draws : ℕ → Vector3) (sys : System) :
    (sys.with_drawn_momentums draws).nb_particles_total =
      sys.nb_particles_total := by
  unfold System.with_drawn_momentums
  simp [System.nb_particles_total]

/-- After one temperature recalibration entered with positive kinetic energy
the temperature equals the target exactly: the rescale by
`sqrt(desired/initial)` sets the kinetic energy to `desired = ½·N_dof·kB·T0`,
and the temperature formula inverts it. -/
theorem temperature_after_recalibrate (kB T0 m : ℝ) (sys : System)
    (hN : 2 ≤ sys.nb_particles_total) (hkB : 0 < kB) (hT0 : 0 ≤ T0)
    (hK : 0 < (sys.kinetic_energy_and_temperature kB m).1) :
    ((sys.recalibrate_according_to_temperature kB T0 m).kinetic_energy_and_temperature
      kB m).2 = T0 := by
  rw [System.recalibrate_according_to_temperature]
  rw [if_neg (not_le.mpr hK)]
  simp only [System.kinetic_energy_and_temperature, System.degrees_of_liberty,
    System.nb_particles_total, List.length_map, sum_p2_of_mul] at *
  have hdof : (0 : ℝ) < ((3 * sys.particles.length - 3 : ℕ) : ℝ) := by
    have : 3 ≤ 3 * sys.particles.length - 3 := by
      have : 2 ≤ sys.particles.length := hN
      omega
    exact_mod_cast Nat.lt_of_lt_of_le (by norm_num) this
  set S := (sys.particles.map fun p => p.kinetic_moment.x ^ 2 +
    p.kinetic_moment.y ^ 2 + p.kinetic_moment.z ^ 2).sum with hS_def
  have hm : m ≠ 0 := by
    intro e
    rw [e] at hK
    simp at hK
  have hS : S ≠ 0 := by
    intro e
    rw [e] at hK
    simp at hK
  have harg : (0 : ℝ) ≤ 0.5 * ((3 * sys.particles.length - 3 : ℕ) : ℝ) * kB * T0 /
      (S / (2 * m)) := by
    apply div_nonneg
    · positivity
    · exact hK.le
  rw [Real.sq_sqrt harg]
  field_simp
  ring

/-- C7: after the thermal initializer, provided the kinetic energy entering
the final rescale is positive, the measured temperature equals the target
`T0` exactly in exact arithmetic, hence within `1e-9` relative. -/
theorem C7_temperature_matches_target (kB T0 m : ℝ) (draws : ℕ → Vector3)
    (sys : System) (hN : 2 ≤ sys.nb_particles_total) (hkB : 0 < kB)
    (hT0 : 0 ≤ T0)
    (hK : 0 < ((System.recalibrate_according_to_center_of_mass
        (System.recalibrate_according_to_temperature kB T0 m
          (sys.with_drawn_momentums draws))).kinetic_energy_and_temperature
            kB m).1) :
    |((sys.init_particles_momentums kB T0 m draws).kinetic_energy_and_temperature
      kB m).2 - T0| ≤ 1e-9 * |T0| := by
  rw [System.init_particles_momentums]
  have hN2 : 2 ≤ (System.recalibrate_according_to_center_of_mass
      (System.recalibrate_according_to_temperature kB T0 m
        (sys.with_drawn_momentums draws))).nb_particles_total := by
    rw [nb_total_recalibrate_center_of_mass, nb_total_recalibrate_temperature,
      nb_total_with_drawn_momentums]
    exact hN
  rw [temperature_after_recalibrate kB T0 m _ hN2 hkB hT0 hK]
  simp [abs_nonneg]
  positivity

/-- A two-particle store with zero momenta, to be initialized. -/
def c4Store : System :=
  ⟨[⟨⟨0, 0, 0⟩, Vector3.zero⟩, ⟨⟨1, 0, 0⟩, Vector3.zero⟩], 0⟩

/-- A concrete outcome of the random momentum draw: `(1,0,0)` for particle 0
and `(0,1,0)` for particle 1. -/
def c4Draws : ℕ → Vector3 := fun i => if i = 0 then ⟨1, 0, 0⟩ else ⟨0, 1, 0⟩

/-- Stage 1 of the initializer on the concrete store: momenta assigned from
the draws. -/
theorem c4_stage1 :
    c4Store.with_drawn_momentums c4Draws =
      ⟨[⟨⟨0, 0, 0⟩, ⟨1, 0, 0⟩⟩, ⟨⟨1, 0, 0⟩, ⟨0, 1, 0⟩⟩], 0⟩ := by
  simp [System.with_drawn_momentums, c4Store, c4Draws, System.particle,
    System.nb_particles_total, List.range_succ]

/-- The temperature rescale on an explicit two-particle store, entered with
positive kinetic energy, written with the scale fully symbolic. -/
theorem recalibrate_two (kB T0 m : ℝ) (c1 c2 : Point3) (v1 v2 : Vector3)
    (nb : ℕ)
    (hK : ¬((System.kinetic_energy_and_temperature kB m
      ⟨[⟨c1, v1⟩, ⟨c2, v2⟩], nb⟩).1 ≤ 0)) :
    System.recalibrate_according_to_temperature kB T0 m
        ⟨[⟨c1, v1⟩, ⟨c2, v2⟩], nb⟩ =
      ⟨[⟨c1, v1.mul (Real.sqrt (0.5 *
          System.degrees_of_liberty ⟨[⟨c1, v1⟩, ⟨c2, v2⟩], nb⟩ * kB * T0 /
          (System.kinetic_energy_and_temperature kB m
            ⟨[⟨c1, v1⟩, ⟨c2, v2⟩], nb⟩).1))⟩,
        ⟨c2, v2.mul (Real.sqrt (0.5 *
          System.degrees_of_liberty ⟨[⟨c1, v1⟩, ⟨c2, v2⟩], nb⟩ * kB * T0 /
          (System.kinetic_energy_and_temperature kB m
            ⟨[⟨c1, v1⟩, ⟨c2, v2⟩], nb⟩).1))⟩], nb⟩ := by
  simp only [System.recalibrate_according_to_temperature]
  rw [if_neg hK]
  rfl

/-- The kinetic energy of the concrete store after the draws (with
`kB = m = 1`) is `1`. -/
theorem c4_ke1 :
    (System.kinetic_energy_and_temperature 1 1
      ⟨[⟨⟨0, 0, 0⟩, ⟨1, 0, 0⟩⟩, ⟨⟨1, 0, 0⟩, ⟨0, 1, 0⟩⟩], 0⟩).1 = 1 := by
  simp only [System.kinetic_energy_and_temperature, Particle.kinetic_moment,
    List.map_cons, List.map_nil, List.sum_cons, List.sum_nil]
  norm_num

/-- Stage 2: the first temperature rescale (with `kB = T0 = m = 1`) enters
with kinetic energy `1` and scales both momenta by `√(3/2)`. -/
theorem c4_stage2 :
    System.recalibrate_according_to_temperature 1 1 1
        ⟨[⟨⟨0, 0, 0⟩, ⟨1, 0, 0⟩⟩, ⟨⟨1, 0, 0⟩, ⟨0, 1, 0⟩⟩], 0⟩ =
      ⟨[⟨⟨0, 0, 0⟩, ⟨Real.sqrt (3 / 2), 0, 0⟩⟩,
        ⟨⟨1, 0, 0⟩, ⟨0, Real.sqrt (3 / 2), 0⟩⟩], 0⟩ := by
  rw [recalibrate_two 1 1 1 _ _ _ _ 0 (by rw [c4_ke1]; norm_num)]
  rw [c4_ke1]
  rw [show System.degrees_of_liberty
    ⟨[⟨⟨0, 0, 0⟩, ⟨1, 0, 0⟩⟩, ⟨⟨1, 0, 0⟩, ⟨0, 1, 0⟩⟩], 0⟩ = 3 by
      simp [System.degrees_of_liberty, System.nb_particles_total]]
  rw [show (0.5 * 3 * 1 * 1 / 1 : ℝ) = 3 / 2 by norm_num]
  simp only [Vector3.mul, one_mul, zero_mul, mul_zero]

/-- Stage 3: the center-of-mass step.  The accumulated momentum is
`(√(3/2), √(3/2), 0)`; the source's `center /= N` multiplies it by `N = 2`
(the `DivAssign` bug), so `(2√(3/2), 2√(3/2), 0)` — twice the total, four
times the mean — is subtracted from every momentum. -/
theorem c4_stage3 :
    System.recalibrate_according_to_center_of_mass
        ⟨[⟨⟨0, 0, 0⟩, ⟨Real.sqrt (3 / 2), 0, 0⟩⟩,
          ⟨⟨1, 0, 0⟩, ⟨0, Real.sqrt (3 / 2), 0⟩⟩], 0⟩ =
      ⟨[⟨⟨0, 0, 0⟩, ⟨-Real.sqrt (3 / 2), -(2 * Real.sqrt (3 / 2)), 0⟩⟩,
        ⟨⟨1, 0, 0⟩, ⟨-(2 * Real.sqrt (3 / 2)), -Real.sqrt (3 / 2), 0⟩⟩], 0⟩ := by
  simp only [System.recalibrate_according_to_center_of_mass,
    System.nb_particles_total, List.map_cons, List.map_nil, List.sum_cons,
    List.sum_nil, List.length_cons, List.length_nil, Vector3.div_assign,
    Vector3.sub, System.mk.injEq, List.cons.injEq, Particle.mk.injEq,
    Vector3.mk.injEq, Point3.mk.injEq]
  norm_num
  and_intros <;> ring

/-- The kinetic energy of the concrete store after the center-of-mass step
(with `kB = m = 1`) is `15/2`. -/
theorem c4_ke2 :
    (System.kinetic_energy_and_temperature 1 1
      ⟨[⟨⟨0, 0, 0⟩, ⟨-Real.sqrt (3 / 2), -(2 * Real.sqrt (3 / 2)), 0⟩⟩,
        ⟨⟨1, 0, 0⟩, ⟨-(2 * Real.sqrt (3 / 2)), -Real.sqrt (3 / 2), 0⟩⟩],
        0⟩).1 = 15 / 2 := by
  have h32 : Real.sqrt (3 / 2) ^ 2 = 3 / 2 := Real.sq_sqrt (by norm_num)
  simp only [System.kinetic_energy_and_temperature, Particle.kinetic_moment,
    List.map_cons, List.map_nil, List.sum_cons, List.sum_nil]
  rw [div_eq_iff (by norm_num : (2 * 1 : ℝ) ≠ 0)]
  linear_combination 10 * h32

/-- Stage 4: the final temperature rescale enters with kinetic energy `15/2`
and scales both momenta by `√(1/5)`. -/
theorem c4_stage4 :
    System.recalibrate_according_to_temperature 1 1 1
        ⟨[⟨⟨0, 0, 0⟩, ⟨-Real.sqrt (3 / 2), -(2 * Real.sqrt (3 / 2)), 0⟩⟩,
          ⟨⟨1, 0, 0⟩, ⟨-(2 * Real.sqrt (3 / 2)), -Real.sqrt (3 / 2), 0⟩⟩], 0⟩ =
      ⟨[⟨⟨0, 0, 0⟩, ⟨-(Real.sqrt (3 / 2) * Real.sqrt (1 / 5)),
          -(2 * Real.sqrt (3 / 2) * Real.sqrt (1 / 5)), 0⟩⟩,
        ⟨⟨1, 0, 0⟩, ⟨-(2 * Real.sqrt (3 / 2) * Real.sqrt (1 / 5)),
          -(Real.sqrt (3 / 2) * Real.sqrt (1 / 5)), 0⟩⟩], 0⟩ := by
  rw [recalibrate_two 1 1 1 _ _ _ _ 0 (by rw [c4_ke2]; norm_num)]
  rw [c4_ke2]
  rw [show System.degrees_of_liberty
    ⟨[⟨⟨0, 0, 0⟩, ⟨-Real.sqrt (3 / 2), -(2 * Real.sqrt (3 / 2)), 0⟩⟩,
      ⟨⟨1, 0, 0⟩, ⟨-(2 * Real.sqrt (3 / 2)), -Real.sqrt (3 / 2), 0⟩⟩], 0⟩ = 3 by
      simp [System.degrees_of_liberty, System.nb_particles_total]]
  rw [show (0.5 * 3 * 1 * 1 / (15 / 2) : ℝ) = 1 / 5 by norm_num]
  simp only [Vector3.mul, System.mk.injEq, List.cons.injEq, Particle.mk.injEq,
    Vector3.mk.injEq, Point3.mk.injEq]
  and_intros <;> ring

/-- C4: the net momentum after the thermal initializer.  With `kB = T0 = m
= 1`, two particles and draws `(1,0,0)`, `(0,1,0)`, the x-components of the
final momenta sum to `-3·√(3/10) ≈ -1.64`, far above the claimed `1e-9`
bound: because `center /= N` multiplies by `N` (the source `DivAssign` bug),
the subtracted vector is `N·Σp` instead of `Σp/N`, and the net momentum
after the initializer is `(1 - N²)` times the rescaled total instead of
zero. -/
theorem C4_net_momentum_not_zero :
    1e-9 ≤ |(((c4Store.init_particles_momentums 1 1 1 c4Draws).particles.map
      fun p => p.momentum.x).sum)| := by
  rw [System.init_particles_momentums, c4_stage1, c4_stage2, c4_stage3,
    c4_stage4]
  simp only [List.map_cons, List.map_nil, List.sum_cons, List.sum_nil]
  have hab : Real.sqrt (3 / 2) * Real.sqrt (1 / 5) = Real.sqrt (3 / 10) := by
    rw [← Real.sqrt_mul (by norm_num : (0 : ℝ) ≤ 3 / 2)]
    norm_num
  have hge : (1 / 2 : ℝ) ≤ Real.sqrt (3 / 10) := by
    have h := Real.sq_sqrt (show (0 : ℝ) ≤ 3 / 10 by norm_num)
    nlinarith [Real.sqrt_nonneg (3 / 10 : ℝ)]
  have hsum : -(Real.sqrt (3 / 2) * Real.sqrt (1 / 5)) +
      (-(2 * Real.sqrt (3 / 2) * Real.sqrt (1 / 5)) + 0) =
      -(3 * Real.sqrt (3 / 10)) := by
    rw [← hab]
    ring
  rw [hsum, abs_neg, abs_of_nonneg (by positivity)]
  linarith

/-- Witness for C7 at the concrete two-particle store, draws `(1,0,0)` and
`(0,1,0)`, and `kB = T0 = m = 1`: the kinetic energy entering the final
rescale is `15/2 > 0` and the final temperature is the target `1`. -/
theorem C7_temperature_matches_target_witness :
    |((c4Store.init_particles_momentums 1 1 1 c4Draws).kinetic_energy_and_temperature
      1 1).2 - 1| ≤ 1e-9 * |(1 : ℝ)| := by
  apply C7_temperature_matches_target 1 1 1 c4Draws c4Store
    (by norm_num [c4Store, System.nb_particles_total]) (by norm_num)
    (by norm_num)
  rw [c4_stage1, c4_stage2, c4_stage3, c4_ke2]
  norm_num

/-- Modelled from the spec: `Particle::put_back_in_box`, called by the
integrator (src/movement.rs line 149) but not declared under the sources;
per §4.3 the wrap replaces each position component `c` by
`c − L·floor(c/L)` with `L = BOX_SIDE`, bringing it into `[0, L)`. -/
def Particle.put_back_in_box (p : Particle) : Particle :=
  { p with coordinates :=
    ⟨p.coordinates.x - BOX_SIDE * (⌊p.coordinates.x / BOX_SIDE⌋ : ℝ),
      p.coordinates.y - BOX_SIDE * (⌊p.coordinates.y / BOX_SIDE⌋ : ℝ),
      p.coordinates.z - BOX_SIDE * (⌊p.coordinates.z / BOX_SIDE⌋ : ℝ)⟩ }

/-- Modelled from the spec: `System::energy_gradient`, called by
`compute_forces_periodic` (src/periodic_conditions.rs line 106) but not
declared under the sources; per §4.4.2 the pair force is
`−48·ε*·((R*/r)¹⁴ − (R*/r)⁸)·δ` with `δ = position(i) − position(j)` and the
even powers computed from `R*²/r²` by repeated squaring
(`(R*/r)⁸ = (R*²/r²)⁴`, `(R*/r)¹⁴ = (R*²/r²)⁷`). -/
def System.energy_gradient (p_i p_j : Particle) : Vector3 :=
  let d := Point3.dist2 p_i.coordinates p_j.coordinates
  let q := R_STAR ^ 2 / d
  (p_i.coordinates.sub p_j.coordinates).mul (-48 * EPSILON_STAR * (q ^ 7 - q ^ 4))

/-- `System::compute_forces_periodic` (src/periodic_conditions.rs lines
75-118): the entry `forces[s][i][j]`.  Branches in source order: the
self-pair at the zero translation is skipped; exactly coinciding translated
coordinates are skipped; the internal assertion of `distance_to_squared`
cannot fire after that guard in exact arithmetic (distinct points have a
positive squared distance); a squared distance above `radius_cut²` is
skipped; a squared distance below `0.0001` is skipped (`continue` — the
assertion is commented out on this path); otherwise `energy_gradient` of
particle `i` against the translated particle `j`. -/
def System.compute_forces_periodic (sys : System) (translations : List Vector3)
    (radius_cut : ℝ) (s i j : ℕ) : Vector3 :=
  let sym := translations.getD s Vector3.zero
  if i = j ∧ sym = Vector3.zero then Vector3.zero
  else
    let particle_j_with_symmetry := ((sys.position j).addVec sym).as_point
    if sys.position i = particle_j_with_symmetry then Vector3.zero
    else
      let dist_ij_squared := Point3.dist2 (sys.position i) particle_j_with_symmetry
      if dist_ij_squared > radius_cut ^ 2 then Vector3.zero
      else if dist_ij_squared < 0.0001 then Vector3.zero
      else System.energy_gradient ⟨sys.position i, (sys.particle i).momentum⟩
        ⟨particle_j_with_symmetry, (sys.particle j).momentum⟩

/-- `System::forces_applied_to_particles` (src/movement.rs lines 70-81):
collapse the force tensor to the per-particle net force by summing over the
translation index and the source index `j`, componentwise. -/
def System.forces_applied_to_particles (nT nP : ℕ) (forces : ℕ → ℕ → ℕ → Vector3)
    (i : ℕ) : Vector3 :=
  ⟨∑ s ∈ Finset.range nT, ∑ j ∈ Finset.range nP, (forces s i j).x,
    ∑ s ∈ Finset.range nT, ∑ j ∈ Finset.range nP, (forces s i j).y,
    ∑ s ∈ Finset.range nT, ∑ j ∈ Finset.range nP, (forces s i j).z⟩

/-- The per-particle net force the integrator consumes
(src/movement.rs lines 85-86 and 132-133): the periodic tensor with the 27
box translations and the production cutoff, collapsed per particle. -/
def System.net_forces (sys : System) (i : ℕ) : Vector3 :=
  System.forces_applied_to_particles (neighboring_3d_translations BOX_SIDE).length
    sys.nb_particles_total
    (sys.compute_forces_periodic (neighboring_3d_translations BOX_SIDE) R_CUT) i

/-- A momentum half-kick (src/movement.rs lines 118-120 and 139-141):
`momentum ← momentum − 0.5 · g(i) · dt · conv`. -/
def System.half_kick (dt conv : ℝ) (g : ℕ → Vector3) (sys : System) : System :=
  ⟨(List.range sys.nb_particles_total).map fun i =>
    { sys.particle i with momentum :=
      (sys.particle i).momentum.sub ((((g i).mul 0.5).mul dt).mul conv) },
    sys.nb_particles_local⟩

/-- The drift (src/movement.rs lines 124-127): every position advances by
`velocity · dt`, the velocity computed as `momentum / PARTICLE_MASS` through
the source's `Div`, which multiplies by the mass. -/
def System.drift (dt m : ℝ) (sys : System) : System :=
  ⟨sys.particles.map fun p =>
    { p with coordinates :=
      (p.coordinates.addVec ((p.momentum.div m).mul dt)).as_point },
    sys.nb_particles_local⟩

/-- Wrap every particle into the primary cell (src/movement.rs lines
148-150). -/
def System.wrap_all (sys : System) : System :=
  ⟨sys.particles.map Particle.put_back_in_box, sys.nb_particles_local⟩

/-- `System::step` (src/movement.rs lines 83-151).  `DELTA_TIME`,
`PARTICLE_MASS` and `CONVERSION_FORCE` are Modelled from the spec:
build-time constants (§6), taken as the parameters `dt`, `m`, `conv`.  The
`INFO` minimal-pair-distance loop (lines 94-112) calls `distance_to_squared`
on every `(sym, i, j)` with `i ≠ j`, so its assertion aborts the step
(modelled by `none`) exactly when some translated pair coincides.  Otherwise,
in source order: net forces from the current store, momentum half-kick,
drift, net forces recomputed from the updated (not yet wrapped) store, final
half-kick, and only then the wrap of every position. -/
def System.step (dt m conv : ℝ) (sys : System) : Option System :=
  if ∃ s ∈ neighboring_3d_translations BOX_SIDE,
      ∃ i ∈ Finset.range sys.nb_particles_total,
      ∃ j ∈ Finset.range sys.nb_particles_total, i ≠ j ∧
        Point3.dist2 (sys.position i) (((sys.position j).addVec s).as_point) = 0
  then none
  else
    let forces := fun i => System.forces_applied_to_particles
      (neighboring_3d_translations BOX_SIDE).length sys.nb_particles_total
      (sys.compute_forces_periodic (neighboring_3d_translations BOX_SIDE) R_CUT) i
    let s1 : System := ⟨(List.range sys.nb_particles_total).map fun i =>
      { sys.particle i with momentum :=
        (sys.particle i).momentum.sub ((((forces i).mul 0.5).mul dt).mul conv) },
      sys.nb_particles_local⟩
    let s2 : System := ⟨s1.particles.map fun p =>
      { p with coordinates :=
        (p.coordinates.addVec ((p.momentum.div m).mul dt)).as_point },
      s1.nb_particles_local⟩
    let forces2 := fun i => System.forces_applied_to_particles
      (neighboring_3d_translations BOX_SIDE).length s2.nb_particles_total
      (s2.compute_forces_periodic (neighboring_3d_translations BOX_SIDE) R_CUT) i
    let s3 : System := ⟨(List.range s2.nb_particles_total).map fun i =>
      { s2.particle i with momentum :=
        (s2.particle i).momentum.sub ((((forces2 i).mul 0.5).mul dt).mul conv) },
      s2.nb_particles_local⟩
    some ⟨s3.particles.map Particle.put_back_in_box, s3.nb_particles_local⟩

/-- The integrator as claim C5 describes it (the spec's §4.5 order):
half-kick with `g₀`, drift, wrap into the primary cell, recompute `g₁` from
the wrapped store, final half-kick.  This is the claim side of the
comparison; `step` above is the source side. -/
def System.step_wrap_before_recompute (dt m conv : ℝ) (sys : System) : System :=
  let s1 := System.half_kick dt conv sys.net_forces sys
  let s2 := System.drift dt m s1
  let s3 := System.wrap_all s2
  System.half_kick dt conv s3.net_forces s3

/-- When the diagnostic loop finds no coinciding pair, `step` decomposes into
its phases in source order: first half-kick, drift, second half-kick fed by
forces computed from the drifted (unwrapped) store, and the wrap last. -/
theorem step_phases (dt m conv : ℝ) (sys : System)
    (h : ¬∃ s ∈ neighboring_3d_translations BOX_SIDE,
      ∃ i ∈ Finset.range sys.nb_particles_total,
      ∃ j ∈ Finset.range sys.nb_particles_total, i ≠ j ∧
        Point3.dist2 (sys.position i) (((sys.position j).addVec s).as_point) = 0) :
    sys.step dt m conv = some (System.wrap_all (System.half_kick dt conv
      ((System.drift dt m (System.half_kick dt conv sys.net_forces sys)).net_forces)
      (System.drift dt m (System.half_kick dt conv sys.net_forces sys)))) := by
  simp only [System.step]
  rw [if_neg h]
  rfl

/-- Every translation produced by the enumerator is `(a·L, b·L, c·L)` with
`a, b, c ∈ {−1, 0, 1}`. -/
theorem mem_neighboring (L : ℝ) (v : Vector3)
    (hv : v ∈ neighboring_3d_translations L) :
    ∃ a b c : ℝ, (a = -1 ∨ a = 0 ∨ a = 1) ∧ (b = -1 ∨ b = 0 ∨ b = 1) ∧
      (c = -1 ∨ c = 0 ∨ c = 1) ∧ v = ⟨a * L, b * L, c * L⟩ := by
  simp only [neighboring_3d_translations, List.mem_flatMap, List.mem_map,
    List.mem_cons, List.not_mem_nil, or_false] at hv
  obtain ⟨a, ha, b, hb, c, hc, hvv⟩ := hv
  exact ⟨a, b, c, ha, hb, hc, hvv.symm⟩

/-- An in-range `getD` is a member of the list. -/
theorem getD_mem {α : Type} (l : List α) (k : ℕ) (d : α) (h : k < l.length) :
    l.getD k d ∈ l := by
  induction l generalizing k with
  | nil => simp at h
  | cons a l ih =>
    cases k with
    | zero => simp
    | succ k =>
      simp only [List.getD_cons_succ, List.mem_cons]
      exact Or.inr (ih k (by simpa using h))

/-- A periodic force-tensor entry is zero when the triple is the excluded
self-pair at the zero translation, or when the translated pair is strictly
beyond the cutoff. -/
theorem cfp_entry_zero (sys : System) (T : List Vector3) (radius_cut : ℝ)
    (s i j : ℕ)
    (h : (i = j ∧ T.getD s Vector3.zero = Vector3.zero) ∨
      radius_cut ^ 2 < Point3.dist2 (sys.position i)
        (((sys.position j).addVec (T.getD s Vector3.zero)).as_point)) :
    sys.compute_forces_periodic T radius_cut s i j = Vector3.zero := by
  simp only [System.compute_forces_periodic]
  rcases h with h | h
  · rw [if_pos h]
  · by_cases hex : i = j ∧ T.getD s Vector3.zero = Vector3.zero
    · rw [if_pos hex]
    · rw [if_neg hex]
      by_cases hco : sys.position i =
          ((sys.position j).addVec (T.getD s Vector3.zero)).as_point
      · rw [if_pos hco]
      · rw [if_neg hco, if_pos h]

/-- A two-particle store at `(0,0,0)` and `(X,0,0)` with arbitrary momenta. -/
def xStore (X : ℝ) (u v : Vector3) : System :=
  ⟨[⟨⟨0, 0, 0⟩, u⟩, ⟨⟨X, 0, 0⟩, v⟩], 0⟩

set_option maxHeartbeats 2000000 in
/-- When `X`, `X − 42` and `X + 42` are all farther than `10` from zero,
every evaluated translated pair of the `X`-store other than the self-pair at
the zero translation is strictly beyond the squared cutoff `100`. -/
theorem xStore_dist_far (X : ℝ) (u v : Vector3)
    (h1 : 100 < (X + 42) ^ 2) (h2 : 100 < X ^ 2) (h3 : 100 < (X - 42) ^ 2) :
    ∀ sym ∈ neighboring_3d_translations BOX_SIDE, ∀ i j : ℕ, i < 2 → j < 2 →
      ¬(i = j ∧ sym = Vector3.zero) →
      100 < Point3.dist2 ((xStore X u v).position i)
        ((((xStore X u v).position j).addVec sym).as_point) := by
  intro sym hsym i j hi hj hne
  obtain ⟨a, b, c, ha, hb, hc, rfl⟩ := mem_neighboring BOX_SIDE sym hsym
  interval_cases i <;> interval_cases j <;>
    rcases ha with rfl | rfl | rfl <;> rcases hb with rfl | rfl | rfl <;>
    rcases hc with rfl | rfl | rfl <;>
    simp_all [xStore, System.position, System.particle, Point3.addVec,
      Vector3.as_point, Point3.dist2, Vector3.zero, BOX_SIDE,
      Vector3.mk.injEq] <;>
    nlinarith [h1, h2, h3, sq_nonneg X]

/-- Under the same farness bounds the per-particle net force on the
`X`-store vanishes: every tensor entry is zero. -/
theorem xStore_net_zero (X : ℝ) (u v : Vector3)
    (h1 : 100 < (X + 42) ^ 2) (h2 : 100 < X ^ 2) (h3 : 100 < (X - 42) ^ 2)
    (i : ℕ) (hi : i < 2) :
    (xStore X u v).net_forces i = Vector3.zero := by
  have hz : ∀ s ∈ Finset.range (neighboring_3d_translations BOX_SIDE).length,
      ∀ j ∈ Finset.range (xStore X u v).nb_particles_total,
      (xStore X u v).compute_forces_periodic
        (neighboring_3d_translations BOX_SIDE) R_CUT s i j = Vector3.zero := by
    intro s hs j hj
    rw [Finset.mem_range] at hs hj
    have hj2 : j < 2 := hj
    by_cases hex : i = j ∧
        (neighboring_3d_translations BOX_SIDE).getD s Vector3.zero = Vector3.zero
    · exact cfp_entry_zero _ _ _ _ _ _ (Or.inl hex)
    · refine cfp_entry_zero _ _ _ _ _ _ (Or.inr ?_)
      have hmem : (neighboring_3d_translations BOX_SIDE).getD s Vector3.zero
          ∈ neighboring_3d_translations BOX_SIDE := getD_mem _ _ _ hs
      have hfar := xStore_dist_far X u v h1 h2 h3 _ hmem i j hi hj2 hex
      calc R_CUT ^ 2 = 100 := by norm_num [R_CUT]
      _ < _ := hfar
  rw [System.net_forces, System.forces_applied_to_particles, Vector3.zero]
  simp only [Vector3.mk.injEq]
  refine ⟨?_, ?_, ?_⟩ <;>
    exact Finset.sum_eq_zero fun s hs => Finset.sum_eq_zero fun j hj => by
      rw [hz s hs j hj]
      rfl

/-- The C5 scenario: particle A at the origin at rest, particle B at
`(20,0,0)` with momentum `(65,0,0)`.  At this state and at the drifted state
`(85,0,0)` every translated pair is beyond the cutoff, but the wrapped
drifted state brings B to `(1,0,0)`, within the cutoff of A. -/
def c5Store : System := xStore 20 ⟨0, 0, 0⟩ ⟨65, 0, 0⟩

/-- The state after the drift: B has moved to `(85,0,0)`. -/
def c5Drifted : System := xStore 85 ⟨0, 0, 0⟩ ⟨65, 0, 0⟩

/-- The state the source's `step` produces: B wrapped to `(1,0,0)`, momenta
untouched (no pair was ever within the cutoff along the source's path). -/
def c5CodeResult : System :=
  ⟨[⟨⟨0, 0, 0⟩, ⟨0, 0, 0⟩⟩, ⟨⟨1, 0, 0⟩, ⟨65, 0, 0⟩⟩], 0⟩

/-- No translated pair of the C5 store coincides, so the diagnostic loop
does not abort. -/
theorem c5_guard :
    ¬∃ s ∈ neighboring_3d_translations BOX_SIDE,
      ∃ i ∈ Finset.range c5Store.nb_particles_total,
      ∃ j ∈ Finset.range c5Store.nb_particles_total, i ≠ j ∧
        Point3.dist2 (c5Store.position i)
          (((c5Store.position j).addVec s).as_point) = 0 := by
  rintro ⟨s, hs, i, hi, j, hj, hij, hd⟩
  rw [Finset.mem_range] at hi hj
  simp only [c5Store] at hi hj hd
  have hfar := xStore_dist_far 20 ⟨0, 0, 0⟩ ⟨65, 0, 0⟩ (by norm_num) (by norm_num)
    (by norm_num) s hs i j hi hj (fun hc => hij hc.1)
  rw [hd] at hfar
  norm_num at hfar

/-- The first half-kick leaves the C5 store unchanged: the net forces
vanish. -/
theorem c5_kick1 : System.half_kick 1 1 c5Store.net_forces c5Store = c5Store := by
  have h0 := xStore_net_zero 20 ⟨0, 0, 0⟩ ⟨65, 0, 0⟩ (by norm_num) (by norm_num)
    (by norm_num) 0 (by norm_num)
  have h1 := xStore_net_zero 20 ⟨0, 0, 0⟩ ⟨65, 0, 0⟩ (by norm_num) (by norm_num)
    (by norm_num) 1 (by norm_num)
  simp only [System.half_kick, c5Store]
  rw [show (xStore 20 ⟨0, 0, 0⟩ ⟨65, 0, 0⟩).nb_particles_total = 2 from rfl]
  rw [show List.range 2 = [0, 1] from rfl]
  simp only [List.map_cons, List.map_nil]
  rw [h0, h1]
  simp only [xStore, System.particle, List.getD_cons_zero, List.getD_cons_succ,
    Vector3.zero, Vector3.mul, Vector3.sub, System.mk.injEq, List.cons.injEq,
    Particle.mk.injEq, Vector3.mk.injEq]
  norm_num

/-- The drift moves B from `(20,0,0)` to `(85,0,0)`. -/
theorem c5_drift : System.drift 1 1 c5Store = c5Drifted := by
  simp only [System.drift, c5Store, c5Drifted, xStore, List.map_cons,
    List.map_nil, Vector3.div, Vector3.mul, Point3.addVec, Vector3.as_point,
    System.mk.injEq, List.cons.injEq, Particle.mk.injEq, Point3.mk.injEq]
  norm_num

/-- The second half-kick leaves the drifted (unwrapped) store unchanged: at
`X = 85` every translated pair is still beyond the cutoff. -/
theorem c5_kick2 :
    System.half_kick 1 1 c5Drifted.net_forces c5Drifted = c5Drifted := by
  have h0 := xStore_net_zero 85 ⟨0, 0, 0⟩ ⟨65, 0, 0⟩ (by norm_num) (by norm_num)
    (by norm_num) 0 (by norm_num)
  have h1 := xStore_net_zero 85 ⟨0, 0, 0⟩ ⟨65, 0, 0⟩ (by norm_num) (by norm_num)
    (by norm_num) 1 (by norm_num)
  simp only [System.half_kick, c5Drifted]
  rw [show (xStore 85 ⟨0, 0, 0⟩ ⟨65, 0, 0⟩).nb_particles_total = 2 from rfl]
  rw [show List.range 2 = [0, 1] from rfl]
  simp only [List.map_cons, List.map_nil]
  rw [h0, h1]
  simp only [xStore, System.particle, List.getD_cons_zero, List.getD_cons_succ,
    Vector3.zero, Vector3.mul, Vector3.sub, System.mk.injEq, List.cons.injEq,
    Particle.mk.injEq, Vector3.mk.injEq]
  norm_num

/-- The wrap brings the drifted store to the code's result: `0` stays, `85`
wraps to `85 − 2·42 = 1`. -/
theorem c5_wrap : System.wrap_all c5Drifted = c5CodeResult := by
  have f0 : (⌊(0 : ℝ) / BOX_SIDE⌋ : ℤ) = 0 := by
    rw [Int.floor_eq_iff]
    norm_num [BOX_SIDE]
  have f85 : (⌊(85 : ℝ) / BOX_SIDE⌋ : ℤ) = 2 := by
    rw [Int.floor_eq_iff]
    norm_num [BOX_SIDE]
  simp only [System.wrap_all, c5Drifted, c5CodeResult, xStore, List.map_cons,
    List.map_nil, Particle.put_back_in_box]
  rw [f0, f85]
  simp only [System.mk.injEq, List.cons.injEq, Particle.mk.injEq,
    Point3.mk.injEq]
  norm_num [BOX_SIDE]

/-- The translation list at the production box side, fully enumerated. -/
theorem T27_explicit : neighboring_3d_translations BOX_SIDE = [
    ⟨-42, -42, -42⟩, ⟨-42, -42, 0⟩, ⟨-42, -42, 42⟩,
    ⟨-42, 0, -42⟩, ⟨-42, 0, 0⟩, ⟨-42, 0, 42⟩,
    ⟨-42, 42, -42⟩, ⟨-42, 42, 0⟩, ⟨-42, 42, 42⟩,
    ⟨0, -42, -42⟩, ⟨0, -42, 0⟩, ⟨0, -42, 42⟩,
    ⟨0, 0, -42⟩, ⟨0, 0, 0⟩, ⟨0, 0, 42⟩,
    ⟨0, 42, -42⟩, ⟨0, 42, 0⟩, ⟨0, 42, 42⟩,
    ⟨42, -42, -42⟩, ⟨42, -42, 0⟩, ⟨42, -42, 42⟩,
    ⟨42, 0, -42⟩, ⟨42, 0, 0⟩, ⟨42, 0, 42⟩,
    ⟨42, 42, -42⟩, ⟨42, 42, 0⟩, ⟨42, 42, 42⟩] := by
  simp only [neighboring_3d_translations, BOX_SIDE, List.flatMap_cons,
    List.flatMap_nil, List.map_cons, List.map_nil, List.cons_append,
    List.nil_append, List.append_nil, List.cons.injEq, Vector3.mk.injEq]
  norm_num

set_option maxHeartbeats 4000000 in
/-- At the wrapped state the net force on particle B is the single
within-cutoff contribution of A at the zero translation:
`−48·ε*·(9⁷ − 9⁴)·1 = −229267584/5` in the x-direction. -/
theorem c5_wrapped_net_x :
    (c5CodeResult.net_forces 1).x = -(229267584 / 5) := by
  have hlen : (neighboring_3d_translations BOX_SIDE).length = 27 := by
    rw [T27_explicit]
    rfl
  have hnb : c5CodeResult.nb_particles_total = 2 := rfl
  have h2 : ∀ g : ℕ → ℝ, ∑ j ∈ Finset.range 2, g j = g 0 + g 1 := fun g => by
    rw [Finset.sum_range_succ, Finset.sum_range_one]
  simp only [System.net_forces, System.forces_applied_to_particles, hlen, hnb]
  rw [← sum_map_range 27, show List.range 27 =
    [0, 1, 2, 3, 4, 5, 6, 7, 8, 9, 10, 11, 12, 13, 14, 15, 16, 17, 18, 19,
      20, 21, 22, 23, 24, 25, 26] from rfl]
  simp only [List.map_cons, List.map_nil, List.sum_cons, List.sum_nil, h2]
  norm_num [System.compute_forces_periodic, System.energy_gradient,
    System.position, System.particle, c5CodeResult, T27_explicit,
    List.getD_cons_zero, List.getD_cons_succ, Point3.addVec, Vector3.as_point,
    Point3.dist2, Point3.sub, Vector3.mul, Vector3.zero, R_CUT, R_STAR,
    EPSILON_STAR, Point3.mk.injEq]

/-- C5 counterexample: the claim says the positions are wrapped before the
second force evaluation, so that `step` agrees with the wrap-then-recompute
order.  On the C5 store the source's `step` computes both force evaluations
from unwrapped positions (all pairs beyond the cutoff) and returns B at
`(1,0,0)` with momentum `(65,0,0)` unchanged, while the wrap-before-recompute
order sees A and B one unit apart at the second evaluation and changes B's
momentum; the two results differ. -/
theorem C5_counterexample :
    System.step 1 1 1 c5Store = some c5CodeResult ∧
    System.step_wrap_before_recompute 1 1 1 c5Store ≠ c5CodeResult := by
  constructor
  · rw [step_phases 1 1 1 c5Store c5_guard, c5_kick1, c5_drift, c5_kick2,
      c5_wrap]
  · simp only [System.step_wrap_before_recompute]
    rw [c5_kick1, c5_drift, c5_wrap]
    intro he
    have hx := congrArg (fun s : System => (s.particle 1).momentum.x) he
    simp only [System.half_kick] at hx
    rw [show c5CodeResult.nb_particles_total = 2 from rfl,
      show List.range 2 = [0, 1] from rfl] at hx
    simp only [List.map_cons, List.map_nil, System.particle,
      List.getD_cons_zero, List.getD_cons_succ, Vector3.mul, Vector3.sub] at hx
    rw [c5_wrapped_net_x] at hx
    simp only [c5CodeResult, List.getD_cons_zero, List.getD_cons_succ] at hx
    norm_num at hx

/-- C5 amended: in every non-aborting call of the integrator step, the wrap
into the primary cell happens last — after the final momentum half-kick —
and the net force `g₁` consumed by that half-kick is computed from the
updated but unwrapped positions. -/
theorem C5_wrap_is_last (dt m conv : ℝ) (sys : System)
    (h : ¬∃ s ∈ neighboring_3d_translations BOX_SIDE,
      ∃ i ∈ Finset.range sys.nb_particles_total,
      ∃ j ∈ Finset.range sys.nb_particles_total, i ≠ j ∧
        Point3.dist2 (sys.position i) (((sys.position j).addVec s).as_point) = 0) :
    sys.step dt m conv = some (System.wrap_all (System.half_kick dt conv
      ((System.drift dt m (System.half_kick dt conv sys.net_forces sys)).net_forces)
      (System.drift dt m (System.half_kick dt conv sys.net_forces sys)))) :=
  step_phases dt m conv sys h

/-- Witness for C5's amended statement at the concrete C5 store. -/
theorem C5_wrap_is_last_witness :
    c5Store.step 1 1 1 = some (System.wrap_all (System.half_kick 1 1
      ((System.drift 1 1 (System.half_kick 1 1 c5Store.net_forces c5Store)).net_forces)
      (System.drift 1 1 (System.half_kick 1 1 c5Store.net_forces c5Store)))) :=
  C5_wrap_is_last 1 1 1 c5Store c5_guard

end

end Mlom
